import Mathlib

/-!
Verification of the CrochetScript front end: the lexical analyzer
(src/lexical.py), the syntactic analyzer (src/sintactic.py), the semantic
analyzer (src/Code/semantic.py) and the compiler driver (src/compiler.py).

The Python code is embedded shallowly: tokens are a structure of two strings,
the scanning loop of `re.finditer` becomes a fuel-indexed recursion (every
iteration consumes at least one input character, so the input length is always
an adequate amount of fuel; `lexList_fuel_congr` below proves the result does
not depend on the fuel once it is adequate), the recursive-descent methods of
`SintacticAnalyzer` become functions consuming a token list and returning the
remaining suffix inside `Except`, and Python exceptions become `Except` error
values.  The compiler's PDF rendering back end is out of scope; `compile`
returns the figure triples that `Compiler.compile` hands to it.
-/

deriving instance DecidableEq for Except

namespace CrochetScript

/-- A token of src/lexical.py: `type_` is the token category and `value` the
matched lexeme, verbatim. -/
structure Token where
  type_ : String
  value : String
deriving Repr, DecidableEq

/-- The literal (multi-character) alternatives of `token_specification` in
`LexicalAnalyzer.lex`, in the exact order the combined regex tries them:
the FIGURE command names, then the COLOR names, then the two KEYWORDS. -/
def literalSpecs : List (String × String) :=
  [("FIGURE", "addCircle"), ("FIGURE", "addSquare"),
   ("FIGURE", "addTriangle"), ("FIGURE", "addHeart"),
   ("COLOR", "RED"), ("COLOR", "PINK"), ("COLOR", "BLUE"), ("COLOR", "BLACK"),
   ("KEYWORDS", "START"), ("KEYWORDS", "END")]

/-- Python's regex alternation at the current scan position: the first literal
alternative that matches (is a prefix of the remaining input) wins. -/
def matchLit (cs : List Char) : Option (String × String) :=
  literalSpecs.find? (fun p => p.2.toList.isPrefixOf cs)

/-- The character class `[1-5]` of the SIZE pattern. -/
def isSizeChar (c : Char) : Bool := c ∈ ['1', '2', '3', '4', '5']

/-- The SPECIALCHAR pattern `\(|\)`. -/
def isParenChar (c : Char) : Bool := c = '(' || c = ')'

/-- The character class `[ \t]` of the SKIP pattern. -/
def isSkipChar (c : Char) : Bool := c = ' ' || c = '\t'

/-- The message of the `RuntimeError` raised on a MISMATCH match:
Python's `f"{value} unexpected"` where `value` is the offending character. -/
def mismatchMsg (c : Char) : String := String.mk [c] ++ " unexpected"

/-- The scanning loop of `LexicalAnalyzer.lex` (src/lexical.py), one step per
`re.finditer` match.  At each position the regex alternatives are tried in
order: the literal words, then `[1-5]` (SIZE), then `\(|\)` (SPECIALCHAR),
then the greedy `[ \t]+` (SKIP, discarded), and finally `.` (MISMATCH, which
raises).  `.` does not match a newline, so at a newline no alternative
matches and `finditer` silently moves one character forward.  The `fuel`
argument only bounds the number of loop iterations: each iteration consumes
at least one character, so `lex` below runs it with the input length, which
is always enough (the `0, _ :: _` arm is unreachable then). -/
def lexList : Nat → List Char → Except String (List Token)
  | _, [] => .ok []
  | 0, _ :: _ => .ok []
  | fuel + 1, c :: cs' =>
    match matchLit (c :: cs') with
    | some kl =>
      match lexList fuel (List.drop kl.2.length (c :: cs')) with
      | .ok rest => .ok ({ type_ := kl.1, value := kl.2 } :: rest)
      | .error e => .error e
    | none =>
      if isSizeChar c then
        match lexList fuel cs' with
        | .ok rest => .ok ({ type_ := "SIZE", value := String.mk [c] } :: rest)
        | .error e => .error e
      else if isParenChar c then
        match lexList fuel cs' with
        | .ok rest => .ok ({ type_ := "SPECIALCHAR", value := String.mk [c] } :: rest)
        | .error e => .error e
      else if isSkipChar c then
        lexList fuel (List.dropWhile isSkipChar cs')
      else if c = '\n' then
        lexList fuel cs'
      else
        .error (mismatchMsg c)

/-- `LexicalAnalyzer.lex`: tokenize a source string, or fail with the
`RuntimeError` message of the first MISMATCH character. -/
def lex (code : String) : Except String (List Token) :=
  lexList code.toList.length code.toList

/-- The exceptions that can escape `SintacticAnalyzer.parse`: `synErr` is the
`SyntaxError(f"Syntax error: expected {expected}, found {current_token}")`
raised by `SintacticAnalyzer.error` (carrying the current token, `none` for
Python's `None` end-of-input sentinel), and `attrErr` is the
`AttributeError` Python raises when `start` evaluates
`self.current_token.type_` while `current_token` is `None`. -/
inductive PErr where
  | synErr (expected : String) (found : Option Token)
  | attrErr
deriving Repr, DecidableEq

/-- `SintacticAnalyzer.start`: expects the keyword START.  Note the source
checks `self.current_token.type_` without a `None` guard, so on an empty
token sequence it dereferences `None` (an `AttributeError`), unlike every
other rule of the file. -/
def start : List Token → Except PErr (List Token)
  | [] => .error .attrErr
  | t :: ts =>
    if t.type_ = "KEYWORDS" ∧ t.value = "START" then .ok ts
    else .error (.synErr "START" (some t))

/-- One guarded check of `SintacticAnalyzer.figure`: Python's
`if self.current_token and <cond>: self.advance() else: self.error(msg)`. -/
def checkTok (p : Token → Bool) (msg : String) : List Token → Except PErr (List Token)
  | [] => .error (.synErr msg none)
  | t :: ts => if p t then .ok ts else .error (.synErr msg (some t))

/-- `SintacticAnalyzer.figure`: FIGURE "(" SIZE COLOR ")", checked token by
token with the error messages of the source. -/
def figure (ts : List Token) : Except PErr (List Token) :=
  match ts with
  | [] => .error (.synErr "FIGURE" none)
  | t :: ts' =>
    if t.type_ = "FIGURE" then
      match checkTok (fun u => u.type_ == "SPECIALCHAR" && u.value == "(") "( after FIGURE" ts' with
      | .error e => .error e
      | .ok ts2 =>
        match checkTok (fun u => u.type_ == "SIZE") "SIZE" ts2 with
        | .error e => .error e
        | .ok ts3 =>
          match checkTok (fun u => u.type_ == "COLOR") "COLOR" ts3 with
          | .error e => .error e
          | .ok ts4 => checkTok (fun u => u.type_ == "SPECIALCHAR" && u.value == ")") ")" ts4
    else .error (.synErr "FIGURE" (some t))

/-- `SintacticAnalyzer.figure_sequence`: `while current_token and
current_token.type_ == "FIGURE": self.figure()`.  The fuel only bounds the
number of loop iterations; every successful `figure` consumes five tokens,
so the token-list length (the fuel `parse` supplies) is always adequate and
the `0, t :: ts'` arm is unreachable from `parse`. -/
def figure_sequence : Nat → List Token → Except PErr (List Token)
  | _, [] => .ok []
  | 0, t :: ts' => .ok (t :: ts')
  | fuel + 1, t :: ts' =>
    if t.type_ = "FIGURE" then
      match figure (t :: ts') with
      | .ok rest => figure_sequence fuel rest
      | .error e => .error e
    else .ok (t :: ts')

/-- `SintacticAnalyzer.end`: expects the keyword END and then no further
tokens. -/
def endRule : List Token → Except PErr (List Token)
  | [] => .error (.synErr "END" none)
  | t :: ts =>
    if t.type_ = "KEYWORDS" ∧ t.value = "END" then
      match ts with
      | [] => .ok []
      | u :: _ => .error (.synErr "No extra tokens expected after END" (some u))
    else .error (.synErr "END" (some t))

/-- `SintacticAnalyzer.parse`: start, figure_sequence, end.  The state (a
cursor into the fixed token list) is embedded as the remaining suffix of the
token list; a successful rule returns the suffix after what it consumed. -/
def parse (ts : List Token) : Except PErr (List Token) :=
  match start ts with
  | .error e => .error e
  | .ok ts1 =>
    match figure_sequence ts1.length ts1 with
    | .error e => .error e
    | .ok ts2 => endRule ts2

/-- A figure triple `(figure, size, color)` of `SemanticAnalyzer`; `none` is
Python's `None` placeholder. -/
abbrev Fig := String × Option String × Option String

/-- One iteration of the token loop of `SemanticAnalyzer.analyze`
(src/Code/semantic.py).  Note the SIZE branch rebuilds the last triple as
`(self.figures[-1][0], token.value, None)`: it writes `None` into the color
slot. -/
def analyzeStep (figs : List Fig) (t : Token) : List Fig :=
  if t.type_ = "FIGURE" then
    figs ++ [(t.value, none, none)]
  else if t.type_ = "SIZE" then
    match figs.getLast? with
    | some (f, none, _) => figs.dropLast ++ [(f, some t.value, none)]
    | _ => figs
  else if t.type_ = "COLOR" then
    match figs.getLast? with
    | some (f, s, none) => figs.dropLast ++ [(f, s, some t.value)]
    | _ => figs
  else figs

/-- `SemanticAnalyzer.analyze`: the left-to-right token loop as a fold. -/
def analyze (ts : List Token) : List Fig := ts.foldl analyzeStep []

/-- The only Python exception the statements of `SemanticAnalyzer.analyze`
could conceivably raise: an `IndexError` from `self.figures[-1]` on an empty
list (in the source this access is guarded by the truthiness test
`if self.figures and ...`). -/
inductive PyErr where
  | indexErr
deriving Repr, DecidableEq

/-- Exception-transparent rendering of one iteration of
`SemanticAnalyzer.analyze`: the truthiness guard `if self.figures` is taken
literally, and the indexing `self.figures[-1]` is modelled as an operation
that raises `IndexError` on an empty list. -/
def analyzeStepE (figs : List Fig) (t : Token) : Except PyErr (List Fig) :=
  if t.type_ = "FIGURE" then .ok (figs ++ [(t.value, none, none)])
  else if t.type_ = "SIZE" then
    if figs.isEmpty then .ok figs
    else
      match figs.getLast? with
      | none => .error PyErr.indexErr
      | some (f, sz, _) =>
        if sz = none then .ok (figs.dropLast ++ [(f, some t.value, none)]) else .ok figs
  else if t.type_ = "COLOR" then
    if figs.isEmpty then .ok figs
    else
      match figs.getLast? with
      | none => .error PyErr.indexErr
      | some (f, sz, c) =>
        if c = none then .ok (figs.dropLast ++ [(f, sz, some t.value)]) else .ok figs
  else .ok figs

/-- Exception-transparent `SemanticAnalyzer.analyze`. -/
def analyzeE (ts : List Token) : Except PyErr (List Fig) :=
  ts.foldlM analyzeStepE []

/-- One iteration of `SemanticAnalyzer.analyze` instrumented with a flag that
is set exactly when a SIZE or COLOR token falls into its silent ignore
branch (no last triple, or the targeted field already set). -/
def analyzeStepI (st : List Fig × Bool) (t : Token) : List Fig × Bool :=
  if t.type_ = "FIGURE" then (st.1 ++ [(t.value, none, none)], st.2)
  else if t.type_ = "SIZE" then
    match st.1.getLast? with
    | some (f, none, _) => (st.1.dropLast ++ [(f, some t.value, none)], st.2)
    | _ => (st.1, true)
  else if t.type_ = "COLOR" then
    match st.1.getLast? with
    | some (f, s, none) => (st.1.dropLast ++ [(f, s, some t.value)], st.2)
    | _ => (st.1, true)
  else st

/-- Whether running `SemanticAnalyzer.analyze` on `ts` ever takes a silent
ignore branch for a SIZE or COLOR token. -/
def analyzeIgnored (ts : List Token) : Bool :=
  (ts.foldl analyzeStepI ([], false)).2

/-- The two fatal error kinds of `Compiler.compile` (src/compiler.py): the
lexer's `RuntimeError` message, or the exception escaping
`SintacticAnalyzer.parse`. -/
inductive CompileErr where
  | lexErr (msg : String)
  | parseErr (e : PErr)
deriving Repr, DecidableEq

/-- `Compiler.compile` (src/compiler.py): tokenize, then validate, then
reduce; the first error aborts the call.  The PDF rendering performed by
`export_pattern` on the resulting figure list is out of scope, so `compile`
returns the figure triples handed to it. -/
def compile (code : String) : Except CompileErr (List Fig) :=
  match lex code with
  | .error m => .error (.lexErr m)
  | .ok toks =>
    match parse toks with
    | .error e => .error (.parseErr e)
    | .ok _ => .ok (analyze toks)

/-- One step of the Figure Reducer fold exactly as claim C1 words it: a SIZE
token sets only the size field of the last triple, leaving its color field
unchanged.  Compare `analyzeStep`, translated from the source, whose SIZE
branch writes `None` into the color field. -/
def claimedStep (figs : List Fig) (t : Token) : List Fig :=
  if t.type_ = "FIGURE" then
    figs ++ [(t.value, none, none)]
  else if t.type_ = "SIZE" then
    match figs.getLast? with
    | some (f, none, c) => figs.dropLast ++ [(f, some t.value, c)]
    | _ => figs
  else if t.type_ = "COLOR" then
    match figs.getLast? with
    | some (f, s, none) => figs.dropLast ++ [(f, s, some t.value)]
    | _ => figs
  else figs

/-- The Figure Reducer as claim C1 describes it. -/
def claimedAnalyze (ts : List Token) : List Fig := ts.foldl claimedStep []

/-- One step of the Figure Reducer fold as the amended claim words it: a SIZE
token binding to the last triple sets its size and resets its color field to
unset, discarding a color set earlier. -/
def amendedStep (figs : List Fig) (t : Token) : List Fig :=
  if t.type_ = "FIGURE" then
    figs ++ [(t.value, none, none)]
  else if t.type_ = "SIZE" then
    match figs.getLast? with
    | some (f, none, _) => figs.dropLast ++ [(f, some t.value, none)]
    | _ => figs
  else if t.type_ = "COLOR" then
    match figs.getLast? with
    | some (f, s, none) => figs.dropLast ++ [(f, s, some t.value)]
    | _ => figs
  else figs

/-- Token sequences that are concatenations of well-formed figure clauses
FIGURE "(" SIZE COLOR ")", the `<FIGURE_SEQUENCE>` nonterminal of the
grammar in src/sintactic.py. -/
inductive FigSeq : List Token → Prop where
  | nil : FigSeq []
  | cons (f lp sz col rp : Token) (rest : List Token)
      (hf : f.type_ = "FIGURE")
      (hlp : lp.type_ = "SPECIALCHAR") (hlpv : lp.value = "(")
      (hsz : sz.type_ = "SIZE") (hcol : col.type_ = "COLOR")
      (hrp : rp.type_ = "SPECIALCHAR") (hrpv : rp.value = ")")
      (hrest : FigSeq rest) : FigSeq (f :: lp :: sz :: col :: rp :: rest)

/-- Grammar-valid programs: START, zero or more figure clauses, END — the
`<S>` production of src/sintactic.py. -/
def ValidProgram (ts : List Token) : Prop :=
  ∃ s body e, ts = s :: (body ++ [e]) ∧
    s.type_ = "KEYWORDS" ∧ s.value = "START" ∧
    e.type_ = "KEYWORDS" ∧ e.value = "END" ∧ FigSeq body

/-- The figure triples determined by a sequence of figure clauses: one fully
filled triple per clause. -/
def blockTriples : List Token → List Fig
  | f :: _ :: sz :: col :: _ :: rest =>
    (f.value, some sz.value, some col.value) :: blockTriples rest
  | _ => []

/-- Characters that can occur inside some match of the token patterns of
src/lexical.py, with the whitespace the scanner skips (spaces and tabs via
the SKIP pattern, newlines because `.` does not match them).  A character
with `insideTokenPatterns c = false` — such as `#` — can only ever be
consumed by the MISMATCH pattern. -/
def insideTokenPatterns (c : Char) : Bool :=
  literalSpecs.any (fun p => p.2.toList.contains c) ||
    isSizeChar c || isParenChar c || isSkipChar c || c = '\n'

/-- Replace a newline by a space, pointwise. -/
def substNl (c : Char) : Char := if c = '\n' then ' ' else c

/-- Value well-formedness of the tokens the lexer can emit: SIZE tokens carry
one of the five digits, COLOR tokens one of the four color names, and no
token text contains a newline. -/
def GoodToken (t : Token) : Prop :=
  (t.type_ = "SIZE" → t.value ∈ ["1", "2", "3", "4", "5"]) ∧
  (t.type_ = "COLOR" → t.value ∈ ["RED", "PINK", "BLUE", "BLACK"]) ∧
  '\n' ∉ t.value.toList

lemma string_length_toList (s : String) : s.length = s.toList.length := rfl

lemma matchLit_mem {cs : List Char} {kl : String × String} (h : matchLit cs = some kl) :
    kl ∈ literalSpecs := by
  unfold matchLit at h
  exact List.mem_of_find?_eq_some h

lemma matchLit_isPrefixOf {cs : List Char} {kl : String × String}
    (h : matchLit cs = some kl) : kl.2.toList.isPrefixOf cs = true := by
  unfold matchLit at h
  simpa using List.find?_some h

lemma matchLit_length_pos {cs : List Char} {kl : String × String}
    (h : matchLit cs = some kl) : 0 < kl.2.length := by
  have hm := matchLit_mem h
  fin_cases hm <;> decide

lemma matchLit_decomp {cs : List Char} {kl : String × String}
    (h : matchLit cs = some kl) : cs = kl.2.toList ++ List.drop kl.2.length cs := by
  have hp := matchLit_isPrefixOf h
  rw [List.isPrefixOf_iff_prefix] at hp
  obtain ⟨t, ht⟩ := hp
  conv_lhs => rw [← ht]
  rw [string_length_toList, ← ht, List.drop_left]

lemma matchLit_head {c : Char} {cs : List Char} {kl : String × String}
    (h : matchLit (c :: cs) = some kl) : c ∈ ['a', 'R', 'P', 'B', 'S', 'E'] := by
  have hp := matchLit_isPrefixOf h
  rw [List.isPrefixOf_iff_prefix] at hp
  have hm := matchLit_mem h
  fin_cases hm <;>
    (obtain ⟨h1, -⟩ := List.cons_prefix_cons.mp hp; rw [← h1]; decide)

lemma matchLit_cons_none {c : Char} (hc : c ∉ ['a', 'R', 'P', 'B', 'S', 'E'])
    (cs : List Char) : matchLit (c :: cs) = none := by
  cases h : matchLit (c :: cs) with
  | none => rfl
  | some kl => exact absurd (matchLit_head h) hc

lemma literal_chars_inside :
    ∀ kl ∈ literalSpecs, ∀ x ∈ kl.2.toList, insideTokenPatterns x = true := by decide

lemma literal_chars_plain :
    ∀ kl ∈ literalSpecs, ∀ x ∈ kl.2.toList, x ≠ '\n' ∧ x ≠ ' ' := by decide

instance : DecidablePred GoodToken := fun t => by
  unfold GoodToken
  infer_instance

lemma literal_token_good :
    ∀ kl ∈ literalSpecs, GoodToken { type_ := kl.1, value := kl.2 } := by decide

lemma lexList_fuel_congr :
    ∀ (fuel fuel' : Nat) (cs : List Char),
      cs.length ≤ fuel → cs.length ≤ fuel' → lexList fuel cs = lexList fuel' cs := by
  intro fuel
  induction fuel with
  | zero =>
    intro fuel' cs h _
    have hnil : cs = [] := List.length_eq_zero.mp (Nat.le_zero.mp h)
    subst hnil
    cases fuel' <;> rfl
  | succ fuel ih =>
    intro fuel' cs h h'
    cases cs with
    | nil => cases fuel' <;> rfl
    | cons c cs' =>
      simp only [List.length_cons] at h h'
      cases fuel' with
      | zero => omega
      | succ f' =>
        simp only [lexList]
        cases hml : matchLit (c :: cs') with
        | some kl =>
          have hpos := matchLit_length_pos hml
          have e1 : lexList fuel (List.drop kl.2.length (c :: cs'))
              = lexList f' (List.drop kl.2.length (c :: cs')) :=
            ih f' _
              (by rw [List.length_drop]; simp only [List.length_cons]; omega)
              (by rw [List.length_drop]; simp only [List.length_cons]; omega)
          simp only [e1]
        | none =>
          have e1 : lexList fuel cs' = lexList f' cs' := ih f' cs' (by omega) (by omega)
          have hle := (List.dropWhile_suffix (l := cs') isSkipChar).length_le
          have e2 : lexList fuel (List.dropWhile isSkipChar cs')
              = lexList f' (List.dropWhile isSkipChar cs') :=
            ih f' _ (by omega) (by omega)
          simp only [e1, e2]

lemma lexList_nil (fuel : Nat) : lexList fuel [] = .ok [] := by
  cases fuel <;> rfl

lemma lexList_step_lit {c : Char} {cs : List Char} {kl : String × String}
    (hml : matchLit (c :: cs) = some kl) (fuel : Nat) :
    lexList (fuel + 1) (c :: cs) =
      match lexList fuel (List.drop kl.2.length (c :: cs)) with
      | .ok rest => .ok ({ type_ := kl.1, value := kl.2 } :: rest)
      | .error e => .error e := by
  simp only [lexList, hml]

lemma lexList_step_size {c : Char} (h1 : isSizeChar c = true) (fuel : Nat)
    (cs : List Char) :
    lexList (fuel + 1) (c :: cs) =
      match lexList fuel cs with
      | .ok rest => .ok ({ type_ := "SIZE", value := String.mk [c] } :: rest)
      | .error e => .error e := by
  have hc : c ∈ ['1', '2', '3', '4', '5'] := by simpa [isSizeChar] using h1
  have hml : matchLit (c :: cs) = none :=
    matchLit_cons_none (by fin_cases hc <;> decide) cs
  simp [lexList, hml, h1]

lemma lexList_step_paren {c : Char} (h2 : isParenChar c = true) (fuel : Nat)
    (cs : List Char) :
    lexList (fuel + 1) (c :: cs) =
      match lexList fuel cs with
      | .ok rest => .ok ({ type_ := "SPECIALCHAR", value := String.mk [c] } :: rest)
      | .error e => .error e := by
  have hc : c = '(' ∨ c = ')' := by simpa [isParenChar] using h2
  have hml : matchLit (c :: cs) = none :=
    matchLit_cons_none (by rcases hc with rfl | rfl <;> decide) cs
  have h1 : isSizeChar c = false := by rcases hc with rfl | rfl <;> decide
  simp [lexList, hml, h1, h2]

lemma lexList_step_skip {c : Char} (h3 : isSkipChar c = true) (fuel : Nat)
    (cs : List Char) :
    lexList (fuel + 1) (c :: cs) = lexList fuel (List.dropWhile isSkipChar cs) := by
  have hc : c = ' ' ∨ c = '\t' := by simpa [isSkipChar] using h3
  have hml : matchLit (c :: cs) = none :=
    matchLit_cons_none (by rcases hc with rfl | rfl <;> decide) cs
  have h1 : isSizeChar c = false := by rcases hc with rfl | rfl <;> decide
  have h2 : isParenChar c = false := by rcases hc with rfl | rfl <;> decide
  simp [lexList, hml, h1, h2, h3]

lemma lexList_step_newline (fuel : Nat) (cs : List Char) :
    lexList (fuel + 1) ('\n' :: cs) = lexList fuel cs := by
  have hml : matchLit ('\n' :: cs) = none := matchLit_cons_none (by decide) cs
  simp [lexList, hml, isSizeChar, isParenChar, isSkipChar]

lemma lexList_step_bad {c : Char} {cs : List Char} (hml : matchLit (c :: cs) = none)
    (h1 : isSizeChar c = false) (h2 : isParenChar c = false)
    (h3 : isSkipChar c = false) (h4 : c ≠ '\n') (fuel : Nat) :
    lexList (fuel + 1) (c :: cs) = .error (mismatchMsg c) := by
  simp [lexList, hml, h1, h2, h3, h4]

lemma lexList_dropWhile (fuel : Nat) (l : List Char) (h : l.length ≤ fuel) :
    lexList fuel (List.dropWhile isSkipChar l) = lexList fuel l := by
  cases l with
  | nil => rfl
  | cons w l' =>
    cases hw : isSkipChar w with
    | false => simp [List.dropWhile_cons, hw]
    | true =>
      simp only [List.length_cons] at h
      cases fuel with
      | zero => omega
      | succ f =>
        rw [List.dropWhile_cons, if_pos hw, lexList_step_skip hw f l']
        have hle := (List.dropWhile_suffix (l := l') isSkipChar).length_le
        exact lexList_fuel_congr _ _ _ (by omega) (by omega)

lemma mem_dropWhile_of_not {α : Type} {p : α → Bool} {b : α} (hpb : p b = false) :
    ∀ (l : List α), b ∈ l → b ∈ List.dropWhile p l := by
  intro l
  induction l with
  | nil => intro hb; cases hb
  | cons x l' ih =>
    intro hb
    rw [List.dropWhile_cons]
    by_cases hx : p x = true
    · rw [if_pos hx]
      rcases List.mem_cons.mp hb with rfl | hmem
      · rw [hpb] at hx; cases hx
      · exact ih hmem
    · rw [if_neg hx]
      exact hb

lemma lexList_good :
    ∀ (fuel : Nat) (cs : List Char) (toks : List Token),
      lexList fuel cs = .ok toks → ∀ t ∈ toks, GoodToken t := by
  intro fuel
  induction fuel with
  | zero =>
    intro cs toks h t ht
    cases cs <;> (simp only [lexList] at h; injection h with h2; subst h2; cases ht)
  | succ fuel ih =>
    intro cs toks h t ht
    cases cs with
    | nil =>
      simp only [lexList] at h
      injection h with h2; subst h2; cases ht
    | cons c cs' =>
      cases hml : matchLit (c :: cs') with
      | some kl =>
        rw [lexList_step_lit hml] at h
        cases hrec : lexList fuel (List.drop kl.2.length (c :: cs')) with
        | ok rest =>
          rw [hrec] at h
          cases h
          rcases List.mem_cons.mp ht with rfl | hmem
          · exact literal_token_good kl (matchLit_mem hml)
          · exact ih _ rest hrec t hmem
        | error e => rw [hrec] at h; cases h
      | none =>
        by_cases h1 : isSizeChar c = true
        · rw [lexList_step_size h1] at h
          cases hrec : lexList fuel cs' with
          | ok rest =>
            rw [hrec] at h
            cases h
            rcases List.mem_cons.mp ht with rfl | hmem
            · have hc : c ∈ ['1', '2', '3', '4', '5'] := by simpa [isSizeChar] using h1
              fin_cases hc <;> decide
            · exact ih _ rest hrec t hmem
          | error e => rw [hrec] at h; cases h
        · by_cases h2 : isParenChar c = true
          · rw [lexList_step_paren h2] at h
            cases hrec : lexList fuel cs' with
            | ok rest =>
              rw [hrec] at h
              cases h
              rcases List.mem_cons.mp ht with rfl | hmem
              · have hc : c = '(' ∨ c = ')' := by simpa [isParenChar] using h2
                rcases hc with rfl | rfl <;> decide
              · exact ih _ rest hrec t hmem
            | error e => rw [hrec] at h; cases h
          · by_cases h3 : isSkipChar c = true
            · rw [lexList_step_skip h3] at h
              exact ih _ toks h t ht
            · by_cases h4 : c = '\n'
              · subst h4
                rw [lexList_step_newline] at h
                exact ih _ toks h t ht
              · rw [lexList_step_bad hml (by simpa using h1) (by simpa using h2)
                  (by simpa using h3) h4] at h
                cases h

lemma lexList_error :
    ∀ (fuel : Nat) (cs : List Char) (m : String),
      lexList fuel cs = .error m → ∃ c, c ≠ '\n' ∧ m = mismatchMsg c := by
  intro fuel
  induction fuel with
  | zero =>
    intro cs m h
    cases cs <;> simp only [lexList] at h <;> cases h
  | succ fuel ih =>
    intro cs m h
    cases cs with
    | nil => simp only [lexList] at h; cases h
    | cons c cs' =>
      cases hml : matchLit (c :: cs') with
      | some kl =>
        rw [lexList_step_lit hml] at h
        cases hrec : lexList fuel (List.drop kl.2.length (c :: cs')) with
        | ok rest => rw [hrec] at h; cases h
        | error e =>
          rw [hrec] at h
          cases h
          exact ih _ _ hrec
      | none =>
        by_cases h1 : isSizeChar c = true
        · rw [lexList_step_size h1] at h
          cases hrec : lexList fuel cs' with
          | ok rest => rw [hrec] at h; cases h
          | error e => rw [hrec] at h; cases h; exact ih _ _ hrec
        · by_cases h2 : isParenChar c = true
          · rw [lexList_step_paren h2] at h
            cases hrec : lexList fuel cs' with
            | ok rest => rw [hrec] at h; cases h
            | error e => rw [hrec] at h; cases h; exact ih _ _ hrec
          · by_cases h3 : isSkipChar c = true
            · rw [lexList_step_skip h3] at h
              exact ih _ _ h
            · by_cases h4 : c = '\n'
              · subst h4
                rw [lexList_step_newline] at h
                exact ih _ _ h
              · rw [lexList_step_bad hml (by simpa using h1) (by simpa using h2)
                  (by simpa using h3) h4] at h
                cases h
                exact ⟨c, h4, rfl⟩

lemma lexList_bad_char :
    ∀ (fuel : Nat) (cs : List Char), cs.length ≤ fuel →
      (∃ c ∈ cs, insideTokenPatterns c = false) →
      ∃ c', c' ∈ cs ∧ lexList fuel cs = .error (mismatchMsg c') := by
  intro fuel
  induction fuel with
  | zero =>
    intro cs h hex
    have hnil : cs = [] := List.length_eq_zero.mp (Nat.le_zero.mp h)
    subst hnil
    obtain ⟨c, hc, -⟩ := hex
    cases hc
  | succ fuel ih =>
    intro cs h hex
    cases cs with
    | nil => obtain ⟨c, hc, -⟩ := hex; cases hc
    | cons c cs' =>
      simp only [List.length_cons] at h
      obtain ⟨b, hb, hbad⟩ := hex
      cases hml : matchLit (c :: cs') with
      | some kl =>
        have hdec := matchLit_decomp hml
        have hbX : b ∈ List.drop kl.2.length (c :: cs') := by
          rw [hdec] at hb
          rcases List.mem_append.mp hb with hL | hR
          · rw [literal_chars_inside kl (matchLit_mem hml) b hL] at hbad; cases hbad
          · exact hR
        have hpos := matchLit_length_pos hml
        have hlen : (List.drop kl.2.length (c :: cs')).length ≤ fuel := by
          rw [List.length_drop]; simp only [List.length_cons]; omega
        obtain ⟨c', hc', herr⟩ := ih _ hlen ⟨b, hbX, hbad⟩
        refine ⟨c', ?_, ?_⟩
        · rw [hdec]; exact List.mem_append.mpr (Or.inr hc')
        · rw [lexList_step_lit hml, herr]
      | none =>
        by_cases h1 : isSizeChar c = true
        · have hbc : b ∈ cs' := by
            rcases List.mem_cons.mp hb with rfl | hmem
            · rw [show insideTokenPatterns b = true from by
                simp [insideTokenPatterns, h1]] at hbad
              cases hbad
            · exact hmem
          obtain ⟨c', hc', herr⟩ := ih cs' (by omega) ⟨b, hbc, hbad⟩
          exact ⟨c', List.mem_cons.mpr (Or.inr hc'), by rw [lexList_step_size h1, herr]⟩
        · by_cases h2 : isParenChar c = true
          · have hbc : b ∈ cs' := by
              rcases List.mem_cons.mp hb with rfl | hmem
              · rw [show insideTokenPatterns b = true from by
                  simp [insideTokenPatterns, h2]] at hbad
                cases hbad
              · exact hmem
            obtain ⟨c', hc', herr⟩ := ih cs' (by omega) ⟨b, hbc, hbad⟩
            exact ⟨c', List.mem_cons.mpr (Or.inr hc'), by rw [lexList_step_paren h2, herr]⟩
          · by_cases h3 : isSkipChar c = true
            · have hbc : b ∈ cs' := by
                rcases List.mem_cons.mp hb with rfl | hmem
                · rw [show insideTokenPatterns b = true from by
                    simp [insideTokenPatterns, h3]] at hbad
                  cases hbad
                · exact hmem
              have hsb : isSkipChar b = false := by
                cases hsb : isSkipChar b
                · rfl
                · rw [show insideTokenPatterns b = true from by
                    simp [insideTokenPatterns, hsb]] at hbad
                  cases hbad
              have hle := (List.dropWhile_suffix (l := cs') isSkipChar).length_le
              obtain ⟨c', hc', herr⟩ :=
                ih _ (by omega) ⟨b, mem_dropWhile_of_not hsb cs' hbc, hbad⟩
              refine ⟨c', List.mem_cons.mpr
                (Or.inr ((List.dropWhile_suffix isSkipChar).subset hc')), ?_⟩
              rw [lexList_step_skip h3, herr]
            · by_cases h4 : c = '\n'
              · subst h4
                have hbc : b ∈ cs' := by
                  rcases List.mem_cons.mp hb with rfl | hmem
                  · exact absurd hbad (by decide)
                  · exact hmem
                obtain ⟨c', hc', herr⟩ := ih cs' (by omega) ⟨b, hbc, hbad⟩
                exact ⟨c', List.mem_cons.mpr (Or.inr hc'),
                  by rw [lexList_step_newline, herr]⟩
              · exact ⟨c, List.mem_cons.mpr (Or.inl rfl), by
                  rw [lexList_step_bad hml (by simpa using h1) (by simpa using h2)
                    (by simpa using h3) h4]⟩

lemma substNl_eq_self {c : Char} (hc : c ≠ '\n') : substNl c = c := by
  simp [substNl, hc]

lemma isPrefixOf_map_substNl :
    ∀ (l : List Char), (∀ x ∈ l, x ≠ '\n' ∧ x ≠ ' ') →
      ∀ (cs : List Char), (l.isPrefixOf (cs.map substNl)) = (l.isPrefixOf cs) := by
  intro l
  induction l with
  | nil => intro _ cs; cases cs <;> rfl
  | cons a l' ih =>
    intro hall cs
    cases cs with
    | nil => rfl
    | cons c cs' =>
      rw [List.map_cons]
      show (a == substNl c && l'.isPrefixOf (cs'.map substNl)) = (a == c && l'.isPrefixOf cs')
      have ha := hall a (List.mem_cons.mpr (Or.inl rfl))
      have hbeq : (a == substNl c) = (a == c) := by
        by_cases hc : c = '\n'
        · subst hc
          rw [show substNl '\n' = ' ' from rfl,
            beq_eq_false_iff_ne.mpr ha.2, beq_eq_false_iff_ne.mpr ha.1]
        · rw [substNl_eq_self hc]
      rw [hbeq, ih (fun x hx => hall x (List.mem_cons.mpr (Or.inr hx))) cs']

lemma find?_congr {α : Type} {p q : α → Bool} :
    ∀ (l : List α), (∀ a ∈ l, p a = q a) → l.find? p = l.find? q := by
  intro l
  induction l with
  | nil => intro _; rfl
  | cons x l' ih =>
    intro h
    rw [List.find?_cons, List.find?_cons, h x (List.mem_cons.mpr (Or.inl rfl)),
      ih (fun a ha => h a (List.mem_cons.mpr (Or.inr ha)))]

lemma matchLit_map_substNl (cs : List Char) :
    matchLit (cs.map substNl) = matchLit cs := by
  unfold matchLit
  exact find?_congr literalSpecs (fun p hp =>
    isPrefixOf_map_substNl p.2.toList (literal_chars_plain p hp) cs)

lemma lexList_map_substNl :
    ∀ (fuel : Nat) (cs : List Char), cs.length ≤ fuel →
      lexList fuel (cs.map substNl) = lexList fuel cs := by
  intro fuel
  induction fuel with
  | zero =>
    intro cs h
    have hnil : cs = [] := List.length_eq_zero.mp (Nat.le_zero.mp h)
    subst hnil; rfl
  | succ fuel ih =>
    intro cs h
    cases cs with
    | nil => rfl
    | cons c cs' =>
      simp only [List.length_cons] at h
      by_cases hc : c = '\n'
      · subst hc
        rw [List.map_cons, show substNl '\n' = ' ' from rfl,
          lexList_step_skip (show isSkipChar ' ' = true from rfl) fuel _,
          lexList_step_newline,
          lexList_dropWhile fuel _ (by rw [List.length_map]; omega),
          ih cs' (by omega)]
      · have hsc : substNl c = c := substNl_eq_self hc
        rw [List.map_cons, hsc]
        have hml2 : matchLit (c :: cs'.map substNl) = matchLit (c :: cs') := by
          have hmm := matchLit_map_substNl (c :: cs')
          rw [List.map_cons, hsc] at hmm
          exact hmm
        cases hml : matchLit (c :: cs') with
        | some kl =>
          rw [hml] at hml2
          have hpos := matchLit_length_pos hml
          rw [lexList_step_lit hml2, lexList_step_lit hml]
          have hX : List.drop kl.2.length (c :: cs'.map substNl)
              = (List.drop kl.2.length (c :: cs')).map substNl := by
            rw [show c :: cs'.map substNl = (c :: cs').map substNl from by
              rw [List.map_cons, hsc]]
            exact (List.map_drop substNl (c :: cs') kl.2.length).symm
          rw [hX, ih _ (by rw [List.length_drop]; simp only [List.length_cons]; omega)]
        | none =>
          rw [hml] at hml2
          by_cases h1 : isSizeChar c = true
          · rw [lexList_step_size h1, lexList_step_size h1, ih cs' (by omega)]
          · by_cases h2 : isParenChar c = true
            · rw [lexList_step_paren h2, lexList_step_paren h2, ih cs' (by omega)]
            · by_cases h3 : isSkipChar c = true
              · rw [lexList_step_skip h3, lexList_step_skip h3,
                  lexList_dropWhile fuel _ (by rw [List.length_map]; omega),
                  lexList_dropWhile fuel _ (by omega), ih cs' (by omega)]
              · rw [lexList_step_bad hml2 (by simpa using h1) (by simpa using h2)
                    (by simpa using h3) hc,
                  lexList_step_bad hml (by simpa using h1) (by simpa using h2)
                    (by simpa using h3) hc]

lemma checkTok_inv {p : Token → Bool} {msg : String} {ts r : List Token}
    (h : checkTok p msg ts = .ok r) : ∃ t, ts = t :: r ∧ p t = true := by
  cases ts with
  | nil => cases h
  | cons t ts0 =>
    simp only [checkTok] at h
    by_cases hp : p t = true
    · rw [if_pos hp] at h
      injection h with h2
      exact ⟨t, by rw [h2], hp⟩
    · rw [if_neg hp] at h
      cases h

lemma checkTok_run {p : Token → Bool} {msg : String} {t : Token} (ts : List Token)
    (hp : p t = true) : checkTok p msg (t :: ts) = .ok ts := by
  simp only [checkTok, if_pos hp]

lemma figure_inv {ts r : List Token} (h : figure ts = .ok r) :
    ∃ f lp sz col rp, ts = f :: lp :: sz :: col :: rp :: r ∧
      f.type_ = "FIGURE" ∧ lp.type_ = "SPECIALCHAR" ∧ lp.value = "(" ∧
      sz.type_ = "SIZE" ∧ col.type_ = "COLOR" ∧
      rp.type_ = "SPECIALCHAR" ∧ rp.value = ")" := by
  cases ts with
  | nil => cases h
  | cons t ts' =>
    simp only [figure] at h
    by_cases hf : t.type_ = "FIGURE"
    · rw [if_pos hf] at h
      cases hc1 : checkTok (fun u => u.type_ == "SPECIALCHAR" && u.value == "(")
          "( after FIGURE" ts' with
      | error e => rw [hc1] at h; cases h
      | ok ts2 =>
        rw [hc1] at h
        dsimp only at h
        obtain ⟨lp, rfl, hlp⟩ := checkTok_inv hc1
        cases hc2 : checkTok (fun u => u.type_ == "SIZE") "SIZE" ts2 with
        | error e => rw [hc2] at h; cases h
        | ok ts3 =>
          rw [hc2] at h
          dsimp only at h
          obtain ⟨sz, rfl, hsz⟩ := checkTok_inv hc2
          cases hc3 : checkTok (fun u => u.type_ == "COLOR") "COLOR" ts3 with
          | error e => rw [hc3] at h; cases h
          | ok ts4 =>
            rw [hc3] at h
            dsimp only at h
            obtain ⟨col, rfl, hcol⟩ := checkTok_inv hc3
            obtain ⟨rp, rfl, hrp⟩ := checkTok_inv h
            simp only [Bool.and_eq_true, beq_iff_eq] at hlp hsz hcol hrp
            exact ⟨t, lp, sz, col, rp, rfl, hf, hlp.1, hlp.2, hsz, hcol, hrp.1, hrp.2⟩
    · rw [if_neg hf] at h
      cases h

lemma figure_run {f lp sz col rp : Token}
    (hf : f.type_ = "FIGURE")
    (hlp : lp.type_ = "SPECIALCHAR") (hlpv : lp.value = "(")
    (hsz : sz.type_ = "SIZE") (hcol : col.type_ = "COLOR")
    (hrp : rp.type_ = "SPECIALCHAR") (hrpv : rp.value = ")")
    (rest : List Token) :
    figure (f :: lp :: sz :: col :: rp :: rest) = .ok rest := by
  have h1 : checkTok (fun u => u.type_ == "SPECIALCHAR" && u.value == "(") "( after FIGURE"
      (lp :: sz :: col :: rp :: rest) = .ok (sz :: col :: rp :: rest) :=
    checkTok_run _ (by simp [hlp, hlpv])
  have h2 : checkTok (fun u => u.type_ == "SIZE") "SIZE" (sz :: col :: rp :: rest)
      = .ok (col :: rp :: rest) := checkTok_run _ (by simp [hsz])
  have h3 : checkTok (fun u => u.type_ == "COLOR") "COLOR" (col :: rp :: rest)
      = .ok (rp :: rest) := checkTok_run _ (by simp [hcol])
  have h4 : checkTok (fun u => u.type_ == "SPECIALCHAR" && u.value == ")") ")" (rp :: rest)
      = .ok rest := checkTok_run _ (by simp [hrp, hrpv])
  simp only [figure, if_pos hf, h1, h2, h3, h4]

lemma figure_sequence_sound :
    ∀ (fuel : Nat) (ts r : List Token), ts.length ≤ fuel →
      figure_sequence fuel ts = .ok r →
      ∃ body, ts = body ++ r ∧ FigSeq body ∧
        (∀ t, r.head? = some t → ¬ t.type_ = "FIGURE") := by
  intro fuel
  induction fuel with
  | zero =>
    intro ts r h hfs
    have hnil : ts = [] := List.length_eq_zero.mp (Nat.le_zero.mp h)
    subst hnil
    simp only [figure_sequence] at hfs
    injection hfs with h2
    subst h2
    exact ⟨[], rfl, .nil, fun t ht => by cases ht⟩
  | succ fuel ih =>
    intro ts r h hfs
    cases ts with
    | nil =>
      simp only [figure_sequence] at hfs
      injection hfs with h2
      subst h2
      exact ⟨[], rfl, .nil, fun t ht => by cases ht⟩
    | cons t ts' =>
      simp only [figure_sequence] at hfs
      by_cases hf : t.type_ = "FIGURE"
      · rw [if_pos hf] at hfs
        cases hfig : figure (t :: ts') with
        | error e => rw [hfig] at hfs; cases hfs
        | ok rest =>
          rw [hfig] at hfs
          obtain ⟨f, lp, sz, col, rp, heq, hf', hlp, hlpv, hsz, hcol, hrp, hrpv⟩ :=
            figure_inv hfig
          have hlen : rest.length ≤ fuel := by
            have h5 : (t :: ts').length = rest.length + 5 := by
              rw [heq]; simp [List.length_cons]
            simp only [List.length_cons] at h h5
            omega
          obtain ⟨body', hb1, hb2, hb3⟩ := ih rest r hlen hfs
          refine ⟨f :: lp :: sz :: col :: rp :: body', ?_, ?_, hb3⟩
          · rw [heq, hb1]; simp [List.cons_append]
          · exact FigSeq.cons f lp sz col rp body' hf' hlp hlpv hsz hcol hrp hrpv hb2
      · rw [if_neg hf] at hfs
        injection hfs with h2
        subst h2
        refine ⟨[], by simp, .nil, fun u hu => ?_⟩
        rw [List.head?_cons] at hu
        injection hu with h3
        subst h3
        exact hf

lemma figure_sequence_complete :
    ∀ (body : List Token), FigSeq body →
      ∀ (tail : List Token) (fuel : Nat), body.length ≤ fuel →
        (∀ t, tail.head? = some t → ¬ t.type_ = "FIGURE") →
        figure_sequence fuel (body ++ tail) = .ok tail := by
  intro body hbody
  induction hbody with
  | nil =>
    intro tail fuel _ htail
    cases tail with
    | nil => simp only [List.nil_append]; cases fuel <;> rfl
    | cons u tail' =>
      have hu : ¬ u.type_ = "FIGURE" := htail u (by rw [List.head?_cons])
      cases fuel with
      | zero => simp only [List.nil_append, figure_sequence]
      | succ f => simp only [List.nil_append, figure_sequence, if_neg hu]
  | cons f lp sz col rp rest hf hlp hlpv hsz hcol hrp hrpv hrest ih =>
    intro tail fuel hlen htail
    cases fuel with
    | zero => simp only [List.length_cons] at hlen; omega
    | succ fu =>
      simp only [List.cons_append, List.append_eq, figure_sequence, if_pos hf]
      rw [figure_run hf hlp hlpv hsz hcol hrp hrpv (rest ++ tail)]
      exact ih tail fu
        (by simp only [List.length_cons] at hlen; omega) htail

lemma start_ok {ts r : List Token} (h : start ts = .ok r) :
    ∃ s, ts = s :: r ∧ s.type_ = "KEYWORDS" ∧ s.value = "START" := by
  cases ts with
  | nil => cases h
  | cons t ts' =>
    simp only [start] at h
    by_cases ht : t.type_ = "KEYWORDS" ∧ t.value = "START"
    · rw [if_pos ht] at h
      injection h with h2
      exact ⟨t, by rw [h2], ht.1, ht.2⟩
    · rw [if_neg ht] at h
      cases h

lemma start_run {s : Token} (hs : s.type_ = "KEYWORDS") (hsv : s.value = "START")
    (ts : List Token) : start (s :: ts) = .ok ts := by
  simp only [start, if_pos (And.intro hs hsv)]

lemma endRule_ok {ts r : List Token} (h : endRule ts = .ok r) :
    r = [] ∧ ∃ e, ts = [e] ∧ e.type_ = "KEYWORDS" ∧ e.value = "END" := by
  cases ts with
  | nil => cases h
  | cons t ts' =>
    simp only [endRule] at h
    by_cases ht : t.type_ = "KEYWORDS" ∧ t.value = "END"
    · rw [if_pos ht] at h
      cases ts' with
      | nil =>
        injection h with h2
        exact ⟨h2.symm, t, rfl, ht.1, ht.2⟩
      | cons u ts'' => cases h
    · rw [if_neg ht] at h
      cases h

lemma endRule_run {e : Token} (he : e.type_ = "KEYWORDS") (hev : e.value = "END") :
    endRule [e] = .ok [] := by
  simp only [endRule, if_pos (And.intro he hev)]

lemma parse_sound {ts r : List Token} (h : parse ts = .ok r) :
    r = [] ∧ ValidProgram ts := by
  unfold parse at h
  cases hst : start ts with
  | error e => rw [hst] at h; cases h
  | ok ts1 =>
    rw [hst] at h
    dsimp only at h
    cases hfs : figure_sequence ts1.length ts1 with
    | error e => rw [hfs] at h; cases h
    | ok ts2 =>
      rw [hfs] at h
      dsimp only at h
      obtain ⟨hr, e, hts2, he, hev⟩ := endRule_ok h
      obtain ⟨s, hts, hs, hsv⟩ := start_ok hst
      obtain ⟨body, hb1, hb2, -⟩ := figure_sequence_sound ts1.length ts1 ts2 le_rfl hfs
      subst hts2
      exact ⟨hr, s, body, e, by rw [hts, hb1], hs, hsv, he, hev, hb2⟩

lemma parse_complete {ts : List Token} (h : ValidProgram ts) : parse ts = .ok [] := by
  obtain ⟨s, body, e, rfl, hs, hsv, he, hev, hbody⟩ := h
  have htail : ∀ t, [e].head? = some t → ¬ t.type_ = "FIGURE" := by
    intro t ht
    rw [List.head?_cons] at ht
    injection ht with h3
    subst h3
    rw [he]
    decide
  simp only [parse, start_run hs hsv]
  rw [figure_sequence_complete body hbody [e] (body ++ [e]).length
    (by simp [List.length_append]) htail]
  exact endRule_run he hev

lemma analyzeStep_other {t : Token} (h1 : ¬ t.type_ = "FIGURE")
    (h2 : ¬ t.type_ = "SIZE") (h3 : ¬ t.type_ = "COLOR") (figs : List Fig) :
    analyzeStep figs t = figs := by
  simp [analyzeStep, h1, h2, h3]

lemma analyzeStep_figure {t : Token} (hf : t.type_ = "FIGURE") (figs : List Fig) :
    analyzeStep figs t = figs ++ [(t.value, none, none)] := by
  simp [analyzeStep, hf]

lemma analyzeStep_size_fresh {t : Token} (hsz : t.type_ = "SIZE")
    (figs : List Fig) (f : String) (c : Option String) :
    analyzeStep (figs ++ [(f, none, c)]) t = figs ++ [(f, some t.value, none)] := by
  rw [analyzeStep, if_neg (by rw [hsz]; decide), if_pos hsz, List.getLast?_concat]
  dsimp only
  rw [List.dropLast_concat]

lemma analyzeStep_color_fresh {t : Token} (hcol : t.type_ = "COLOR")
    (figs : List Fig) (f : String) (s : Option String) :
    analyzeStep (figs ++ [(f, s, none)]) t = figs ++ [(f, s, some t.value)] := by
  rw [analyzeStep, if_neg (by rw [hcol]; decide), if_neg (by rw [hcol]; decide),
    if_pos hcol, List.getLast?_concat]
  dsimp only
  rw [List.dropLast_concat]

lemma analyze_foldl_figseq :
    ∀ (body : List Token), FigSeq body →
      ∀ (figs : List Fig), List.foldl analyzeStep figs body = figs ++ blockTriples body := by
  intro body hbody
  induction hbody with
  | nil => intro figs; simp [blockTriples]
  | cons f lp sz col rp rest hf hlp hlpv hsz hcol hrp hrpv hrest ih =>
    intro figs
    have e1 := analyzeStep_figure hf figs
    have e2 : analyzeStep (figs ++ [(f.value, none, none)]) lp
        = figs ++ [(f.value, none, none)] :=
      analyzeStep_other (by rw [hlp]; decide) (by rw [hlp]; decide)
        (by rw [hlp]; decide) _
    have e3 := analyzeStep_size_fresh hsz figs f.value none
    have e4 := analyzeStep_color_fresh hcol figs f.value (some sz.value)
    have e5 : analyzeStep (figs ++ [(f.value, some sz.value, some col.value)]) rp
        = figs ++ [(f.value, some sz.value, some col.value)] :=
      analyzeStep_other (by rw [hrp]; decide) (by rw [hrp]; decide)
        (by rw [hrp]; decide) _
    simp only [List.foldl_cons, e1, e2, e3, e4, e5]
    rw [ih (figs ++ [(f.value, some sz.value, some col.value)])]
    simp [blockTriples, List.append_assoc]

lemma blockTriples_fst :
    ∀ (body : List Token), FigSeq body →
      (blockTriples body).map (fun p => p.1)
        = (body.filter (fun t => t.type_ == "FIGURE")).map Token.value := by
  intro body hbody
  induction hbody with
  | nil => simp [blockTriples]
  | cons f lp sz col rp rest hf hlp hlpv hsz hcol hrp hrpv hrest ih =>
    simp only [blockTriples, List.map_cons, List.filter_cons, hf, hlp, hsz, hcol, hrp]
    norm_num
    exact ih

lemma blockTriples_mem :
    ∀ (body : List Token), FigSeq body →
      ∀ p ∈ blockTriples body,
        ∃ sz col, sz ∈ body ∧ col ∈ body ∧ sz.type_ = "SIZE" ∧ col.type_ = "COLOR" ∧
          p.2.1 = some sz.value ∧ p.2.2 = some col.value := by
  intro body hbody
  induction hbody with
  | nil => intro p hp; rw [show blockTriples [] = [] from rfl] at hp; cases hp
  | cons f lp sz col rp rest hf hlp hlpv hsz hcol hrp hrpv hrest ih =>
    intro p hp
    rw [show blockTriples (f :: lp :: sz :: col :: rp :: rest)
      = (f.value, some sz.value, some col.value) :: blockTriples rest from rfl] at hp
    rcases List.mem_cons.mp hp with rfl | hmem
    · refine ⟨sz, col, ?_, ?_, hsz, hcol, rfl, rfl⟩
      · simp [List.mem_cons]
      · simp [List.mem_cons]
    · obtain ⟨sz', col', hsz1, hcol1, hsz2, hcol2, hp1, hp2⟩ := ih p hmem
      refine ⟨sz', col', ?_, ?_, hsz2, hcol2, hp1, hp2⟩
      · simp only [List.mem_cons]; tauto
      · simp only [List.mem_cons]; tauto

lemma analyze_valid_program {s : Token} {body : List Token} {e : Token}
    (hs : s.type_ = "KEYWORDS") (he : e.type_ = "KEYWORDS") (hbody : FigSeq body) :
    analyze (s :: (body ++ [e])) = blockTriples body := by
  have h1 : analyzeStep [] s = [] :=
    analyzeStep_other (by rw [hs]; decide) (by rw [hs]; decide) (by rw [hs]; decide) _
  have h2 : analyzeStep (blockTriples body) e = blockTriples body :=
    analyzeStep_other (by rw [he]; decide) (by rw [he]; decide) (by rw [he]; decide) _
  rw [analyze, List.foldl_cons, h1, List.foldl_append,
    analyze_foldl_figseq body hbody [], List.nil_append, List.foldl_cons,
    List.foldl_nil, h2]

lemma analyzeStepE_eq (figs : List Fig) (t : Token) :
    analyzeStepE figs t = .ok (analyzeStep figs t) := by
  unfold analyzeStepE analyzeStep
  by_cases h1 : t.type_ = "FIGURE"
  · simp [h1]
  · rw [if_neg h1, if_neg h1]
    by_cases h2 : t.type_ = "SIZE"
    · rw [if_pos h2, if_pos h2]
      cases hfigs : figs.isEmpty with
      | true =>
        have hnil : figs = [] := List.isEmpty_iff.mp hfigs
        subst hnil
        simp
      | false =>
        rw [if_neg (by decide)]
        obtain ⟨⟨f, sz, c⟩, hlast⟩ : ∃ x, figs.getLast? = some x := by
          cases hgl : figs.getLast? with
          | none =>
            rw [List.getLast?_eq_none_iff] at hgl
            subst hgl
            cases hfigs
          | some x => exact ⟨x, rfl⟩
        rw [hlast]
        cases sz <;> simp
    · rw [if_neg h2, if_neg h2]
      by_cases h3 : t.type_ = "COLOR"
      · rw [if_pos h3, if_pos h3]
        cases hfigs : figs.isEmpty with
        | true =>
          have hnil : figs = [] := List.isEmpty_iff.mp hfigs
          subst hnil
          simp
        | false =>
          rw [if_neg (by decide)]
          obtain ⟨⟨f, sz, c⟩, hlast⟩ : ∃ x, figs.getLast? = some x := by
            cases hgl : figs.getLast? with
            | none =>
              rw [List.getLast?_eq_none_iff] at hgl
              subst hgl
              cases hfigs
            | some x => exact ⟨x, rfl⟩
          rw [hlast]
          cases c <;> simp
      · rw [if_neg h3, if_neg h3]

lemma foldlM_analyzeStepE :
    ∀ (ts : List Token) (figs : List Fig),
      List.foldlM analyzeStepE figs ts = .ok (List.foldl analyzeStep figs ts) := by
  intro ts
  induction ts with
  | nil => intro figs; rfl
  | cons t ts ih =>
    intro figs
    rw [List.foldlM_cons, analyzeStepE_eq]
    exact ih (analyzeStep figs t)

lemma analyzeStepI_other {t : Token} (h1 : ¬ t.type_ = "FIGURE")
    (h2 : ¬ t.type_ = "SIZE") (h3 : ¬ t.type_ = "COLOR") (st : List Fig × Bool) :
    analyzeStepI st t = st := by
  simp [analyzeStepI, h1, h2, h3]

lemma analyzeStepI_figure {t : Token} (hf : t.type_ = "FIGURE") (st : List Fig × Bool) :
    analyzeStepI st t = (st.1 ++ [(t.value, none, none)], st.2) := by
  simp [analyzeStepI, hf]

lemma analyzeStepI_size_fresh {t : Token} (hsz : t.type_ = "SIZE")
    (figs : List Fig) (b : Bool) (f : String) (c : Option String) :
    analyzeStepI (figs ++ [(f, none, c)], b) t = (figs ++ [(f, some t.value, none)], b) := by
  rw [analyzeStepI, if_neg (by rw [hsz]; decide), if_pos hsz]
  dsimp only
  rw [List.getLast?_concat]
  dsimp only
  rw [List.dropLast_concat]

lemma analyzeStepI_color_fresh {t : Token} (hcol : t.type_ = "COLOR")
    (figs : List Fig) (b : Bool) (f : String) (s : Option String) :
    analyzeStepI (figs ++ [(f, s, none)], b) t = (figs ++ [(f, s, some t.value)], b) := by
  rw [analyzeStepI, if_neg (by rw [hcol]; decide), if_neg (by rw [hcol]; decide),
    if_pos hcol]
  dsimp only
  rw [List.getLast?_concat]
  dsimp only
  rw [List.dropLast_concat]

lemma analyzeI_foldl_figseq :
    ∀ (body : List Token), FigSeq body →
      ∀ (figs : List Fig) (b : Bool),
        List.foldl analyzeStepI (figs, b) body = (figs ++ blockTriples body, b) := by
  intro body hbody
  induction hbody with
  | nil => intro figs b; simp [blockTriples]
  | cons f lp sz col rp rest hf hlp hlpv hsz hcol hrp hrpv hrest ih =>
    intro figs b
    have e1 := analyzeStepI_figure hf (figs, b)
    have e2 : analyzeStepI (figs ++ [(f.value, none, none)], b) lp
        = (figs ++ [(f.value, none, none)], b) :=
      analyzeStepI_other (by rw [hlp]; decide) (by rw [hlp]; decide)
        (by rw [hlp]; decide) _
    have e3 := analyzeStepI_size_fresh hsz figs b f.value none
    have e4 := analyzeStepI_color_fresh hcol figs b f.value (some sz.value)
    have e5 : analyzeStepI (figs ++ [(f.value, some sz.value, some col.value)], b) rp
        = (figs ++ [(f.value, some sz.value, some col.value)], b) :=
      analyzeStepI_other (by rw [hrp]; decide) (by rw [hrp]; decide)
        (by rw [hrp]; decide) _
    simp only [List.foldl_cons, e1, e2, e3, e4, e5]
    rw [ih (figs ++ [(f.value, some sz.value, some col.value)]) b]
    simp [blockTriples, List.append_assoc]

lemma analyzeIgnored_valid {s : Token} {body : List Token} {e : Token}
    (hs : s.type_ = "KEYWORDS") (he : e.type_ = "KEYWORDS") (hbody : FigSeq body) :
    analyzeIgnored (s :: (body ++ [e])) = false := by
  have h1 : analyzeStepI (([] : List Fig), false) s = ([], false) :=
    analyzeStepI_other (by rw [hs]; decide) (by rw [hs]; decide) (by rw [hs]; decide) _
  have h2 : analyzeStepI (blockTriples body, false) e = (blockTriples body, false) :=
    analyzeStepI_other (by rw [he]; decide) (by rw [he]; decide) (by rw [he]; decide) _
  rw [analyzeIgnored, List.foldl_cons, h1, List.foldl_append,
    analyzeI_foldl_figseq body hbody [] false, List.nil_append, List.foldl_cons,
    List.foldl_nil, h2]

lemma analyzeStep_preserves_set_size (figs : List Fig) (t : Token) (i : Nat)
    (f s : String) (c : Option String) (h : figs[i]? = some (f, some s, c)) :
    ∃ c', (analyzeStep figs t)[i]? = some (f, some s, c') := by
  have hi : i < figs.length := by
    rcases List.getElem?_eq_some.mp h with ⟨hlt, -⟩
    exact hlt
  unfold analyzeStep
  by_cases h1 : t.type_ = "FIGURE"
  · rw [if_pos h1]
    exact ⟨c, by rw [List.getElem?_append, if_pos hi, h]⟩
  · rw [if_neg h1]
    by_cases h2 : t.type_ = "SIZE"
    · rw [if_pos h2]
      cases hl : figs.getLast? with
      | none => exact ⟨c, h⟩
      | some last =>
        obtain ⟨lf, lsz, lc⟩ := last
        cases lsz with
        | some v => exact ⟨c, h⟩
        | none =>
          have hlast := List.getLast?_eq_getElem? figs
          have hine : i ≠ figs.length - 1 := by
            intro hie
            rw [hie] at h
            rw [hlast, h] at hl
            injection hl with hl2
            have hsome := congrArg (fun p => p.2.1) hl2
            simp at hsome
          have hi' : i < figs.length - 1 := by omega
          refine ⟨c, ?_⟩
          rw [List.getElem?_append, List.length_dropLast, if_pos hi',
            List.dropLast_eq_take, List.getElem?_take, if_pos hi', h]
    · rw [if_neg h2]
      by_cases h3 : t.type_ = "COLOR"
      · rw [if_pos h3]
        cases hl : figs.getLast? with
        | none => exact ⟨c, h⟩
        | some last =>
          obtain ⟨lf, lsz, lc⟩ := last
          cases lc with
          | some v => exact ⟨c, h⟩
          | none =>
            have hlast := List.getLast?_eq_getElem? figs
            by_cases hie : i = figs.length - 1
            · rw [hie] at h
              rw [hlast, h] at hl
              injection hl with hl2
              simp only [Prod.mk.injEq] at hl2
              obtain ⟨h4, h5, h6⟩ := hl2
              refine ⟨some t.value, ?_⟩
              rw [List.getElem?_append, List.length_dropLast,
                if_neg (by omega), show i - (figs.length - 1) = 0 from by omega,
                ← h4, ← h5]
              rfl
            · have hi' : i < figs.length - 1 := by omega
              exact ⟨c, by
                rw [List.getElem?_append, List.length_dropLast, if_pos hi',
                  List.dropLast_eq_take, List.getElem?_take, if_pos hi', h]⟩
      · rw [if_neg h3]
        exact ⟨c, h⟩

/-- C1, counterexample: the claim says a SIZE token leaves the color field of
the last triple unchanged, but on the token sequence FIGURE COLOR SIZE the
source's SIZE branch discards the color `RED` that was already set, writing
`None` into the color slot, so `analyze` differs from the claimed fold. -/
theorem analyze_size_keeps_color_cex :
    analyze [⟨"FIGURE", "addCircle"⟩, ⟨"COLOR", "RED"⟩, ⟨"SIZE", "3"⟩]
      = [("addCircle", some "3", none)] ∧
    claimedAnalyze [⟨"FIGURE", "addCircle"⟩, ⟨"COLOR", "RED"⟩, ⟨"SIZE", "3"⟩]
      = [("addCircle", some "3", some "RED")] ∧
    analyze [⟨"FIGURE", "addCircle"⟩, ⟨"COLOR", "RED"⟩, ⟨"SIZE", "3"⟩]
      ≠ claimedAnalyze [⟨"FIGURE", "addCircle"⟩, ⟨"COLOR", "RED"⟩, ⟨"SIZE", "3"⟩] := by
  decide

/-- C1, amended: `SemanticAnalyzer.analyze` is exactly the fold whose FIGURE
step appends `(name, unset, unset)`, whose SIZE step — when the last triple
exists with unset size — sets the size and resets the color field to unset
(discarding any earlier color), whose COLOR step sets only the color field
when it is unset, and which ignores every other token; moreover a triple
whose size field has been set never has its name or size changed by any
later token. -/
theorem analyze_fold_amended :
    (∀ ts, analyze ts = List.foldl amendedStep [] ts) ∧
    (∀ (figs : List Fig) (t : Token) (i : Nat) (f s : String) (c : Option String),
      figs[i]? = some (f, some s, c) →
      ∃ c', (analyzeStep figs t)[i]? = some (f, some s, c')) :=
  ⟨fun _ => rfl, analyzeStep_preserves_set_size⟩

/-- C1, witness for `analyze_fold_amended` at concrete inputs. -/
theorem analyze_fold_amended_witness :
    analyze [⟨"FIGURE", "addCircle"⟩]
      = List.foldl amendedStep [] [⟨"FIGURE", "addCircle"⟩] ∧
    ∃ c', (analyzeStep [("addCircle", some "3", some "RED")] ⟨"SIZE", "5"⟩)[0]?
        = some ("addCircle", some "3", c') :=
  ⟨analyze_fold_amended.1 _,
   analyze_fold_amended.2 [("addCircle", some "3", some "RED")] ⟨"SIZE", "5"⟩ 0
     "addCircle" "3" (some "RED") (by decide)⟩

/-- C2: on the empty token sequence `SintacticAnalyzer.parse` does not raise
a `SyntaxError` at all — `start` dereferences the `None` current token and
Python raises `AttributeError`; the whole pipeline shows the same on the
empty source text. -/
theorem parse_empty_attr_error :
    parse [] = .error PErr.attrErr ∧
    lex "" = .ok [] ∧
    compile "" = .error (CompileErr.parseErr PErr.attrErr) := by
  decide

/-- C3, counterexample: the character `6` is not split into SIZE tokens — it
matches no token pattern except MISMATCH, so `lex "6"` raises the
`RuntimeError` message instead of producing a SIZE token. -/
theorem lex_six_mismatch_cex :
    lex "6" = .error "6 unexpected" ∧ lex "6" ≠ .ok [⟨"SIZE", "6"⟩] := by
  decide

/-- C3, amended: the lexer never produces a SIZE token whose text is longer
than one character; a multi-digit number whose digits are all in 1–5, such
as `12`, is split into one SIZE token per digit, while a digit outside 1–5,
such as `6`, is a lexical mismatch that raises an error. -/
theorem lex_size_single_digit :
    (∀ (text : String) (toks : List Token), lex text = .ok toks →
      ∀ t ∈ toks, t.type_ = "SIZE" → t.value.length = 1) ∧
    lex "12" = .ok [⟨"SIZE", "1"⟩, ⟨"SIZE", "2"⟩] ∧
    lex "6" = .error (mismatchMsg '6') := by
  refine ⟨?_, by decide, by decide⟩
  intro text toks h t ht hsz
  have hval := (lexList_good _ _ _ h t ht).1 hsz
  simp only [List.mem_cons, List.not_mem_nil, or_false] at hval
  rcases hval with h1 | h1 | h1 | h1 | h1 <;> rw [h1] <;> decide

/-- C3, witness for `lex_size_single_digit` at a concrete input. -/
theorem lex_size_single_digit_witness :
    (Token.mk "SIZE" "1").value.length = 1 ∧
    lex "12" = .ok [⟨"SIZE", "1"⟩, ⟨"SIZE", "2"⟩] :=
  ⟨lex_size_single_digit.1 "12" [⟨"SIZE", "1"⟩, ⟨"SIZE", "2"⟩] (by decide)
     ⟨"SIZE", "1"⟩ (by decide) rfl,
   lex_size_single_digit.2.1⟩

/-- C4: the Figure Reducer never raises — the exception-transparent embedding
`analyzeE` always returns `ok` with exactly the value of `analyze` — and on
every token sequence the Grammar Validator accepts, no SIZE or COLOR token
ever falls into a silent ignore branch. -/
theorem reduce_total_and_no_ignore :
    (∀ ts, analyzeE ts = .ok (analyze ts)) ∧
    (∀ ts r, parse ts = .ok r → analyzeIgnored ts = false) := by
  constructor
  · intro ts
    exact foldlM_analyzeStepE ts []
  · intro ts r h
    obtain ⟨-, s, body, e, rfl, hs, -, he, -, hbody⟩ := parse_sound h
    exact analyzeIgnored_valid hs he hbody

/-- C4, witness for `reduce_total_and_no_ignore` at concrete inputs. -/
theorem reduce_total_and_no_ignore_witness :
    analyzeE [⟨"KEYWORDS", "START"⟩] = .ok (analyze [⟨"KEYWORDS", "START"⟩]) ∧
    analyzeIgnored [⟨"KEYWORDS", "START"⟩, ⟨"KEYWORDS", "END"⟩] = false :=
  ⟨reduce_total_and_no_ignore.1 _,
   reduce_total_and_no_ignore.2 [⟨"KEYWORDS", "START"⟩, ⟨"KEYWORDS", "END"⟩] []
     (by decide)⟩

/-- C5: every grammar-valid program — START, zero or more well-formed figure
clauses, END — passes the Grammar Validator, and the Figure Reducer returns
exactly one triple per FIGURE token, in source order: the triple names are
precisely the values of the FIGURE tokens, in sequence. -/
theorem valid_program_parse_and_reduce :
    ∀ ts, ValidProgram ts →
      parse ts = .ok [] ∧
      (analyze ts).map (fun p => p.1)
        = (ts.filter (fun t => t.type_ == "FIGURE")).map Token.value := by
  intro ts h
  refine ⟨parse_complete h, ?_⟩
  obtain ⟨s, body, e, rfl, hs, hsv, he, hev, hbody⟩ := h
  rw [analyze_valid_program hs he hbody, blockTriples_fst body hbody]
  have hsf : (s.type_ == "FIGURE") = false := by rw [hs]; decide
  have hef : (e.type_ == "FIGURE") = false := by rw [he]; decide
  simp [List.filter_cons, List.filter_append, hsf, hef]

/-- C5, witness for `valid_program_parse_and_reduce` at a concrete valid
program with one figure clause. -/
theorem valid_program_parse_and_reduce_witness :
    parse [⟨"KEYWORDS", "START"⟩, ⟨"FIGURE", "addCircle"⟩, ⟨"SPECIALCHAR", "("⟩,
        ⟨"SIZE", "3"⟩, ⟨"COLOR", "RED"⟩, ⟨"SPECIALCHAR", ")"⟩, ⟨"KEYWORDS", "END"⟩]
      = .ok [] ∧
    (analyze [⟨"KEYWORDS", "START"⟩, ⟨"FIGURE", "addCircle"⟩, ⟨"SPECIALCHAR", "("⟩,
        ⟨"SIZE", "3"⟩, ⟨"COLOR", "RED"⟩, ⟨"SPECIALCHAR", ")"⟩,
        ⟨"KEYWORDS", "END"⟩]).map (fun p => p.1)
      = ([⟨"KEYWORDS", "START"⟩, ⟨"FIGURE", "addCircle"⟩, ⟨"SPECIALCHAR", "("⟩,
        ⟨"SIZE", "3"⟩, ⟨"COLOR", "RED"⟩, ⟨"SPECIALCHAR", ")"⟩,
        ⟨"KEYWORDS", "END"⟩].filter (fun t => t.type_ == "FIGURE")).map Token.value :=
  valid_program_parse_and_reduce _
    ⟨⟨"KEYWORDS", "START"⟩,
     [⟨"FIGURE", "addCircle"⟩, ⟨"SPECIALCHAR", "("⟩, ⟨"SIZE", "3"⟩,
      ⟨"COLOR", "RED"⟩, ⟨"SPECIALCHAR", ")"⟩],
     ⟨"KEYWORDS", "END"⟩, rfl, rfl, rfl, rfl, rfl,
     FigSeq.cons _ _ _ _ _ _ rfl rfl rfl rfl rfl rfl rfl FigSeq.nil⟩

/-- C6, counterexample: the input `"d#"` contains `#`, a character outside
every token pattern, yet the lexical error names `d` — the character at the
first position where no pattern matched — and not `#`. -/
theorem lex_mismatch_not_exact_cex :
    insideTokenPatterns '#' = false ∧ '#' ∈ "d#".toList ∧
    insideTokenPatterns 'd' = true ∧
    lex "d#" = .error (mismatchMsg 'd') ∧
    lex "d#" ≠ .error (mismatchMsg '#') := by
  decide

/-- C6, amended: whenever the input contains a character outside every token
pattern (and outside the whitespace the scanner skips), tokenization fails,
the error message names the character at the first position where no token
pattern matched (the offending character itself whenever everything before
it tokenizes cleanly), and the failure propagates out of `compile` as the
lexical error, before the syntactic analyzer ever runs. -/
theorem lex_bad_char_before_validation :
    ∀ (text : String), (∃ c ∈ text.toList, insideTokenPatterns c = false) →
      ∃ c', c' ∈ text.toList ∧ lex text = .error (mismatchMsg c') ∧
        compile text = .error (CompileErr.lexErr (mismatchMsg c')) := by
  intro text hex
  obtain ⟨c', hc', herr⟩ := lexList_bad_char text.toList.length text.toList le_rfl hex
  refine ⟨c', hc', herr, ?_⟩
  unfold compile
  rw [show lex text = .error (mismatchMsg c') from herr]

/-- C6, witness for `lex_bad_char_before_validation` at the input `"#"`. -/
theorem lex_bad_char_before_validation_witness :
    ∃ c', c' ∈ "#".toList ∧ lex "#" = .error (mismatchMsg c') ∧
      compile "#" = .error (CompileErr.lexErr (mismatchMsg c')) :=
  lex_bad_char_before_validation "#" ⟨'#', by decide, by decide⟩

/-- C7: the Grammar Validator only accepts a token sequence it has consumed
entirely (the suffix it returns is empty), and tokens remaining after a
successful END match produce the trailing-token syntax error of the
source. -/
theorem parse_consumes_all :
    (∀ ts r, parse ts = .ok r → r = []) ∧
    (∀ (e u : Token) (rest : List Token), e.type_ = "KEYWORDS" → e.value = "END" →
      endRule (e :: u :: rest)
        = .error (.synErr "No extra tokens expected after END" (some u))) := by
  constructor
  · intro ts r h
    exact (parse_sound h).1
  · intro e u rest he hev
    simp [endRule, he, hev]

/-- C7, witness for `parse_consumes_all` at concrete inputs. -/
theorem parse_consumes_all_witness :
    ([] : List Token) = [] ∧
    endRule [⟨"KEYWORDS", "END"⟩, ⟨"SIZE", "3"⟩]
      = .error (.synErr "No extra tokens expected after END" (some ⟨"SIZE", "3"⟩)) :=
  ⟨parse_consumes_all.1 [⟨"KEYWORDS", "START"⟩, ⟨"KEYWORDS", "END"⟩] [] (by decide),
   parse_consumes_all.2 ⟨"KEYWORDS", "END"⟩ ⟨"SIZE", "3"⟩ [] rfl rfl⟩

/-- C8: the grammar admits an empty figure sequence — `"START END"` tokenizes
to exactly the two KEYWORDS tokens, the Grammar Validator accepts them, and
the Figure Reducer returns the empty list of triples. -/
theorem start_end_empty_sequence :
    lex "START END" = .ok [⟨"KEYWORDS", "START"⟩, ⟨"KEYWORDS", "END"⟩] ∧
    parse [⟨"KEYWORDS", "START"⟩, ⟨"KEYWORDS", "END"⟩] = .ok [] ∧
    analyze [⟨"KEYWORDS", "START"⟩, ⟨"KEYWORDS", "END"⟩] = [] := by
  decide

/-- C9: newlines are skippable whitespace for the tokenizer — no emitted
token text ever contains a newline, every lexical error names a non-newline
character, and tokenizing a text is the same as tokenizing the text with
its newlines replaced by spaces. -/
theorem newline_skippable :
    (∀ (text : String) (toks : List Token), lex text = .ok toks →
      ∀ t ∈ toks, '\n' ∉ t.value.toList) ∧
    (∀ (text m : String), lex text = .error m →
      ∃ c, c ≠ '\n' ∧ m = mismatchMsg c) ∧
    (∀ text : String, lex (String.mk (text.toList.map substNl)) = lex text) := by
  refine ⟨?_, ?_, ?_⟩
  · intro text toks h t ht
    exact (lexList_good _ _ _ h t ht).2.2
  · intro text m h
    exact lexList_error _ _ _ h
  · intro text
    show lexList (text.toList.map substNl).length (text.toList.map substNl) = lex text
    rw [List.length_map]
    exact lexList_map_substNl _ _ le_rfl

/-- C9, witness for `newline_skippable` at concrete inputs. -/
theorem newline_skippable_witness :
    '\n' ∉ (Token.mk "SIZE" "1").value.toList ∧
    (∃ c, c ≠ '\n' ∧ "6 unexpected" = mismatchMsg c) ∧
    lex (String.mk ("1\n2".toList.map substNl)) = lex "1\n2" :=
  ⟨newline_skippable.1 "1\n2" [⟨"SIZE", "1"⟩, ⟨"SIZE", "2"⟩] (by decide)
     ⟨"SIZE", "1"⟩ (by decide),
   newline_skippable.2.1 "6" "6 unexpected" (by decide),
   newline_skippable.2.2 "1\n2"⟩

/-- C10: on every lexer-produced token sequence the Grammar Validator
accepts, every triple the Figure Reducer returns is fully filled — its size
is one of the five digits and its color one of the four color names — so
downstream consumers have no missing-value case. -/
theorem accepted_triples_filled :
    ∀ (text : String) (toks r : List Token),
      lex text = .ok toks → parse toks = .ok r →
      ∀ p ∈ analyze toks,
        (∃ s, p.2.1 = some s ∧ s ∈ ["1", "2", "3", "4", "5"]) ∧
        (∃ c, p.2.2 = some c ∧ c ∈ ["RED", "PINK", "BLUE", "BLACK"]) := by
  intro text toks r hlex hparse p hp
  obtain ⟨-, s, body, e, rfl, hs, hsv, he, hev, hbody⟩ := parse_sound hparse
  rw [analyze_valid_program hs he hbody] at hp
  obtain ⟨sz, col, hszm, hcolm, hszt, hcolt, hp1, hp2⟩ :=
    blockTriples_mem body hbody p hp
  constructor
  · refine ⟨sz.value, hp1, ?_⟩
    have hmem : sz ∈ s :: (body ++ [e]) :=
      List.mem_cons.mpr (Or.inr (List.mem_append.mpr (Or.inl hszm)))
    exact (lexList_good _ _ _ hlex sz hmem).1 hszt
  · refine ⟨col.value, hp2, ?_⟩
    have hmem : col ∈ s :: (body ++ [e]) :=
      List.mem_cons.mpr (Or.inr (List.mem_append.mpr (Or.inl hcolm)))
    exact (lexList_good _ _ _ hlex col hmem).2.1 hcolt

/-- C10, witness for `accepted_triples_filled` at a concrete accepted
program. -/
theorem accepted_triples_filled_witness :
    (∃ s, (("addCircle", some "3", some "RED") : Fig).2.1 = some s ∧
      s ∈ ["1", "2", "3", "4", "5"]) ∧
    (∃ c, (("addCircle", some "3", some "RED") : Fig).2.2 = some c ∧
      c ∈ ["RED", "PINK", "BLUE", "BLACK"]) :=
  accepted_triples_filled "START addCircle(3 RED) END"
    [⟨"KEYWORDS", "START"⟩, ⟨"FIGURE", "addCircle"⟩, ⟨"SPECIALCHAR", "("⟩,
     ⟨"SIZE", "3"⟩, ⟨"COLOR", "RED"⟩, ⟨"SPECIALCHAR", ")"⟩, ⟨"KEYWORDS", "END"⟩] []
    (by decide) (by decide) ("addCircle", some "3", some "RED") (by decide)

end CrochetScript
